import Mathlib

/-!
# Memory reclaimer section guards and arbitration protocol

Shallow embedding of `velox/exec/MemoryReclaimer.h`.

The two scoped guards (`ReclaimableSectionGuard`, `NonReclaimableSectionGuard`)
are fully defined in the header and are translated line by line: a guard holds
a pointer to a `tsan_atomic<bool>` cell and the value that cell had when the
guard was constructed.  Memory is a map from addresses to boolean cells.

`MemoryReclaimer::enterArbitration`, `leaveArbitration`, `abort` and
`memoryArbitrationStateCheck` are only declared in the header; their bodies
are modelled from the specification text and marked as such.
-/

namespace VeloxExec

/-! ## Memory cells -/

/-- Memory holding the `tsan_atomic<bool>` cells, indexed by address. -/
abbrev Store := Nat → Bool

/-- Assignment through a pointer: `*p = b`. -/
def Store.write (σ : Store) (p : Nat) (b : Bool) : Store :=
  fun q => if q = p then b else σ q

/-! ## ReclaimableSectionGuard -/

/-- Data members of `class ReclaimableSectionGuard`. -/
structure ReclaimableSectionGuard where
  nonReclaimableSection_ : Nat
  oldNonReclaimableSectionValue_ : Bool
deriving DecidableEq, Repr

/-- Constructor `ReclaimableSectionGuard(tsan_atomic<bool>* nonReclaimableSection)`:
the member initialisers copy the pointer and read the cell, the body stores
`false` through the pointer.  Returns the new object and the memory after. -/
def ReclaimableSectionGuard.construct (nonReclaimableSection : Nat) (σ : Store) :
    ReclaimableSectionGuard × Store :=
  let g : ReclaimableSectionGuard :=
    { nonReclaimableSection_ := nonReclaimableSection
      oldNonReclaimableSectionValue_ := σ nonReclaimableSection }
  (g, σ.write g.nonReclaimableSection_ false)

/-- Destructor `~ReclaimableSectionGuard()`:
`*nonReclaimableSection_ = oldNonReclaimableSectionValue_`. -/
def ReclaimableSectionGuard.destruct (g : ReclaimableSectionGuard) (σ : Store) : Store :=
  σ.write g.nonReclaimableSection_ g.oldNonReclaimableSectionValue_

/-! ## NonReclaimableSectionGuard -/

/-- Data members of `class NonReclaimableSectionGuard`. -/
structure NonReclaimableSectionGuard where
  nonReclaimableSection_ : Nat
  oldNonReclaimableSectionValue_ : Bool
deriving DecidableEq, Repr

/-- Constructor `NonReclaimableSectionGuard(tsan_atomic<bool>* nonReclaimableSection)`:
the member initialisers copy the pointer and read the cell, the body stores
`true` through the pointer.  Returns the new object and the memory after. -/
def NonReclaimableSectionGuard.construct (nonReclaimableSection : Nat) (σ : Store) :
    NonReclaimableSectionGuard × Store :=
  let g : NonReclaimableSectionGuard :=
    { nonReclaimableSection_ := nonReclaimableSection
      oldNonReclaimableSectionValue_ := σ nonReclaimableSection }
  (g, σ.write g.nonReclaimableSection_ true)

/-- Destructor `~NonReclaimableSectionGuard()`:
`*nonReclaimableSection_ = oldNonReclaimableSectionValue_`. -/
def NonReclaimableSectionGuard.destruct (g : NonReclaimableSectionGuard) (σ : Store) : Store :=
  σ.write g.nonReclaimableSection_ g.oldNonReclaimableSectionValue_

/-! ## Guards of either class and properly nested use -/

/-- The two guard classes of the header. -/
inductive GuardKind
  | reclaimable
  | nonReclaimable
deriving DecidableEq, Repr

/-- A live guard object of either class. -/
inductive SectionGuard
  | reclaimable (g : ReclaimableSectionGuard)
  | nonReclaimable (g : NonReclaimableSectionGuard)
deriving DecidableEq, Repr

/-- Construct a guard of class `k` on the flag at address `p`. -/
def SectionGuard.construct (k : GuardKind) (p : Nat) (σ : Store) : SectionGuard × Store :=
  match k with
  | .reclaimable =>
    let r := ReclaimableSectionGuard.construct p σ
    (.reclaimable r.1, r.2)
  | .nonReclaimable =>
    let r := NonReclaimableSectionGuard.construct p σ
    (.nonReclaimable r.1, r.2)

/-- Run the destructor of a guard of either class. -/
def SectionGuard.destruct : SectionGuard → Store → Store
  | .reclaimable g, σ => g.destruct σ
  | .nonReclaimable g, σ => g.destruct σ

/-- The pointer member of a guard of either class. -/
def SectionGuard.ptr : SectionGuard → Nat
  | .reclaimable g => g.nonReclaimableSection_
  | .nonReclaimable g => g.nonReclaimableSection_

/-- The recorded prior value of a guard of either class. -/
def SectionGuard.old : SectionGuard → Bool
  | .reclaimable g => g.oldNonReclaimableSectionValue_
  | .nonReclaimable g => g.oldNonReclaimableSectionValue_

/-- The class of a guard object. -/
def SectionGuard.kind : SectionGuard → GuardKind
  | .reclaimable _ => .reclaimable
  | .nonReclaimable _ => .nonReclaimable

/-- The value a guard class stores into the flag: `false` for a
`ReclaimableSectionGuard`, `true` for a `NonReclaimableSectionGuard`. -/
def GuardKind.pushedValue : GuardKind → Bool
  | .reclaimable => false
  | .nonReclaimable => true

/-- One step of scoped guard use on a single flag: a guard of some class is
constructed, or the most recently constructed live guard is destroyed (stack
discipline: automatic objects die in reverse order of construction). -/
inductive ScopeEvent
  | construct (k : GuardKind)
  | destruct
deriving DecidableEq, Repr

/-- Memory together with the guards currently alive, innermost first. -/
structure ScopeState where
  mem : Store
  live : List SectionGuard

/-- Execute one event on the flag at address `p`.  Destroying with no guard alive
is not a well-formed program and yields `none`. -/
def stepScope (p : Nat) (s : ScopeState) : ScopeEvent → Option ScopeState
  | .construct k =>
    let r := SectionGuard.construct k p s.mem
    some ⟨r.2, r.1 :: s.live⟩
  | .destruct =>
    match s.live with
    | [] => none
    | g :: rest => some ⟨g.destruct s.mem, rest⟩

/-- Execute a sequence of events from left to right. -/
def runScopes (p : Nat) : List ScopeEvent → ScopeState → Option ScopeState
  | [], s => some s
  | e :: es, s => (stepScope p s e).bind (runScopes p es)

/-- The classes of the guards alive after the events, innermost first, when the
guards of classes `alive` were alive before; `none` when some event destroys a guard
while none is alive.  A sequence is properly nested when this is defined, and has
destroyed every guard it constructed when the result is the list it started from. -/
def openGuards : List ScopeEvent → List GuardKind → Option (List GuardKind)
  | [], alive => some alive
  | .construct k :: es, alive => openGuards es (k :: alive)
  | .destruct :: _, [] => none
  | .destruct :: es, _ :: alive => openGuards es alive

/-- The value the flag is expected to show: the one pushed by the innermost live
guard, or `v` when no guard is alive. -/
def exposedValue (v : Bool) : List GuardKind → Bool
  | [] => v
  | k :: _ => k.pushedValue

/-- Every live guard points at `p` and has recorded what the guards below it expose. -/
def WellChained (p : Nat) (v : Bool) : List SectionGuard → Prop
  | [] => True
  | g :: rest =>
    g.ptr = p ∧ g.old = exposedValue v (rest.map SectionGuard.kind) ∧ WellChained p v rest

/-! ## A guarded block with a body that may raise -/

/-- The block `{ ReclaimableSectionGuard guard(p); body }`.  The body receives the
memory after construction and leaves some memory together with either a value or
a raised error.  The guard is an automatic object, so its destructor runs when
the block is left normally and also while the stack unwinds; the error then
continues to the caller. -/
def withReclaimableSectionGuard {ε α : Type} (p : Nat)
    (body : Store → Except ε α × Store) (σ : Store) : Except ε α × Store :=
  let c := ReclaimableSectionGuard.construct p σ
  match body c.2 with
  | (.ok a, σ₂) => (.ok a, c.1.destruct σ₂)
  | (.error e, σ₂) => (.error e, c.1.destruct σ₂)

/-- The block `{ NonReclaimableSectionGuard guard(p); body }`, as above. -/
def withNonReclaimableSectionGuard {ε α : Type} (p : Nat)
    (body : Store → Except ε α × Store) (σ : Store) : Except ε α × Store :=
  let c := NonReclaimableSectionGuard.construct p σ
  match body c.2 with
  | (.ok a, σ₂) => (.ok a, c.1.destruct σ₂)
  | (.error e, σ₂) => (.error e, c.1.destruct σ₂)

/-- Modelled from the spec: the arbitrator (an external collaborator, absent from the
header) consults the flag before reclaiming in place; a `true` flag means the
attempt is rejected or deferred, `false` lets it proceed. -/
def reclaimAttemptSucceeds (σ : Store) (p : Nat) : Bool :=
  !(σ p)

/-! ## Arbitration hooks (bodies not in the header) -/

/-- Modelled from the spec: an execution unit (driver) with its SuspensionFlag
(Boolean, `false` = running) and whether it is off-thread.  The driver and task types
are not part of the header. -/
structure ExecutionUnit where
  suspended : Bool
  offThread : Bool
deriving DecidableEq, Repr

/-- Modelled from the spec: a unit as created, on thread with its SuspensionFlag at the
default `false`; the flag is changed by nothing but the two arbitration hooks. -/
def ExecutionUnit.create : ExecutionUnit :=
  ⟨false, false⟩

/-- Modelled from the spec: the body of `MemoryReclaimer::enterArbitration()`, which the
header only declares: "Sets that unit's SuspensionFlag to true." -/
def MemoryReclaimer.enterArbitration (u : ExecutionUnit) : ExecutionUnit :=
  { u with suspended := true }

/-- Modelled from the spec: the body of `MemoryReclaimer::leaveArbitration()`, which the
header only declares: "Restores SuspensionFlag to false." -/
def MemoryReclaimer.leaveArbitration (u : ExecutionUnit) : ExecutionUnit :=
  { u with suspended := false }

/-- A call of one of the two arbitration hooks. -/
inductive ArbitrationCall
  | enter
  | leave
deriving DecidableEq, Repr

/-- Apply a sequence of hook calls to one unit, left to right. -/
def runArbitrationCalls : List ArbitrationCall → ExecutionUnit → ExecutionUnit
  | [], u => u
  | .enter :: cs, u => runArbitrationCalls cs (MemoryReclaimer.enterArbitration u)
  | .leave :: cs, u => runArbitrationCalls cs (MemoryReclaimer.leaveArbitration u)

/-- Number of enter calls still without a later leave of their own once the calls
have been made, starting with `pending` such calls.  A leave pairs with one pending
enter when there is one. -/
def unmatchedEnters : List ArbitrationCall → Nat → Nat
  | [], pending => pending
  | .enter :: cs, pending => unmatchedEnters cs (pending + 1)
  | .leave :: cs, pending => unmatchedEnters cs (pending - 1)

/-- Each enter of the sequence is matched by a later leave. -/
def eachEnterMatched (cs : List ArbitrationCall) : Bool :=
  unmatchedEnters cs 0 == 0

/-- Modelled from the spec: what `abort` leaves on a memory pool (the pool type is not
part of the header): the error attributed as the cause of the abort, `none` while
the pool's owner has not been aborted. -/
structure MemoryPool (ε : Type) where
  abortCause : Option ε
deriving DecidableEq, Repr

/-- Modelled from the spec: the body of `MemoryReclaimer::abort(pool, error)`, which the
header only declares: terminates the owner of the pool attributing `error` as the
cause; "aborting an already-aborting scope is a no-op". -/
def MemoryReclaimer.abort {ε : Type} (pool : MemoryPool ε) (error : ε) : MemoryPool ε :=
  match pool.abortCause with
  | some _ => pool
  | none => { pool with abortCause := some error }

/-! ## Arbitration state check (body not in the header) -/

/-- Modelled from the spec: a unit is actively running when it is neither off-thread
nor suspended; "a suspended driver thread is not counted as running". -/
def ExecutionUnit.activelyRunning (u : ExecutionUnit) : Bool :=
  !u.offThread && !u.suspended

/-- Modelled from the spec: every unit of the list is in the suspended-or-off-thread
state, that is, none is actively running. -/
def allSuspendedOrOffThread (us : List ExecutionUnit) : Bool :=
  us.all (fun u => !u.activelyRunning)

/-- Modelled from the spec: how a call of the state check ends: it returns to the
arbitrator (at some poll), it reports the deadlock-potential condition, or its bounded
wait is reported as a timeout. -/
inductive StateCheckOutcome
  | returned (poll : Nat)
  | deadlockError
  | timedOut
deriving DecidableEq, Repr

/-- Modelled from the spec: the bounded wait of the state check.  `units t` is what the
checker reads at its poll number `t` (the units change their own flags on their own
threads; the checker only reads).  It returns at the first poll that finds every unit
suspended or off-thread and reports a timeout when the bound is used up. -/
def waitForUnits (units : Nat → List ExecutionUnit) : Nat → Nat → StateCheckOutcome
  | 0, _ => .timedOut
  | polls + 1, t =>
    if allSuspendedOrOffThread (units t) then .returned t
    else waitForUnits units polls (t + 1)

/-- Modelled from the spec: the body of `memoryArbitrationStateCheck(pool)`, which the
header only declares.  `units` are the execution units of the pool's owner as read at
each poll, `caller` is the index of the calling thread's own unit among them when the
caller is such a unit.  A caller that is an unsuspended unit of the owner is reported
as an error before any waiting; otherwise the check waits for every unit. -/
def memoryArbitrationStateCheck (caller : Option Nat) (units : Nat → List ExecutionUnit)
    (maxPolls : Nat) : StateCheckOutcome :=
  match caller.bind (fun i => (units 0)[i]?) with
  | some u => if u.suspended then waitForUnits units maxPolls 0 else .deadlockError
  | none => waitForUnits units maxPolls 0

/-! ## Basic facts about memory writes -/

theorem Store.write_same (σ : Store) (p : Nat) (b : Bool) : (σ.write p b) p = b := by
  simp [Store.write]

theorem Store.write_other (σ : Store) (p q : Nat) (b : Bool) (h : q ≠ p) :
    (σ.write p b) q = σ q := by
  simp [Store.write, h]

theorem SectionGuard.destruct_eq_write (g : SectionGuard) (σ : Store) :
    g.destruct σ = σ.write g.ptr g.old := by
  cases g <;> rfl

theorem SectionGuard.construct_spec (k : GuardKind) (p : Nat) (σ : Store) :
    (SectionGuard.construct k p σ).1.ptr = p
      ∧ (SectionGuard.construct k p σ).1.old = σ p
      ∧ (SectionGuard.construct k p σ).1.kind = k
      ∧ (SectionGuard.construct k p σ).2 p = k.pushedValue := by
  cases k <;>
    simp [SectionGuard.construct, ReclaimableSectionGuard.construct,
      NonReclaimableSectionGuard.construct, SectionGuard.ptr, SectionGuard.old,
      SectionGuard.kind, GuardKind.pushedValue, Store.write]

/-! ## Constructor postconditions -/

/-- C2: for every prior value of the flag, right after construction the flag holds the
value fixed by the guard type alone (`false` for `ReclaimableSectionGuard`, `true` for
`NonReclaimableSectionGuard`), and the guard has recorded the prior value (and the
pointer it was given). -/
theorem construct_sets_flag_and_records_prior (p : Nat) (σ : Store) :
    ((ReclaimableSectionGuard.construct p σ).2 p = false
      ∧ (ReclaimableSectionGuard.construct p σ).1.oldNonReclaimableSectionValue_ = σ p
      ∧ (ReclaimableSectionGuard.construct p σ).1.nonReclaimableSection_ = p)
    ∧ ((NonReclaimableSectionGuard.construct p σ).2 p = true
      ∧ (NonReclaimableSectionGuard.construct p σ).1.oldNonReclaimableSectionValue_ = σ p
      ∧ (NonReclaimableSectionGuard.construct p σ).1.nonReclaimableSection_ = p) := by
  simp [ReclaimableSectionGuard.construct, NonReclaimableSectionGuard.construct,
    Store.write]

/-! ## Properly nested guards -/

/-- One event keeps the flag equal to the exposed value and the live guards chained. -/
theorem stepScope_invariant (p : Nat) (v : Bool) (s s' : ScopeState) (e : ScopeEvent)
    (hm : s.mem p = exposedValue v (s.live.map SectionGuard.kind))
    (hc : WellChained p v s.live) (h : stepScope p s e = some s') :
    s'.mem p = exposedValue v (s'.live.map SectionGuard.kind) ∧ WellChained p v s'.live := by
  cases e with
  | construct k =>
    obtain ⟨h1, h2, h3, h4⟩ := SectionGuard.construct_spec k p s.mem
    simp only [stepScope, Option.some.injEq] at h
    subst h
    refine ⟨?_, ?_⟩
    · simpa [exposedValue, h3] using h4
    · exact ⟨h1, by rw [h2, hm], hc⟩
  | destruct =>
    cases hl : s.live with
    | nil => simp [stepScope, hl] at h
    | cons g rest =>
      simp only [stepScope, hl, Option.some.injEq] at h
      subst h
      rw [hl] at hc
      obtain ⟨hp, ho, hrest⟩ := hc
      refine ⟨?_, hrest⟩
      show (g.destruct s.mem) p = exposedValue v (rest.map SectionGuard.kind)
      rw [SectionGuard.destruct_eq_write, hp, Store.write_same, ho]

/-- The invariant holds after any sequence of events that runs. -/
theorem runScopes_invariant (p : Nat) (v : Bool) (evs : List ScopeEvent) :
    ∀ (s s' : ScopeState), s.mem p = exposedValue v (s.live.map SectionGuard.kind) →
      WellChained p v s.live → runScopes p evs s = some s' →
      s'.mem p = exposedValue v (s'.live.map SectionGuard.kind)
        ∧ WellChained p v s'.live := by
  induction evs with
  | nil =>
    intro s s' hm hc h
    simp only [runScopes, Option.some.injEq] at h
    subst h
    exact ⟨hm, hc⟩
  | cons e es ih =>
    intro s s' hm hc h
    simp only [runScopes] at h
    cases hs : stepScope p s e with
    | none => simp [hs] at h
    | some s₁ =>
      rw [hs] at h
      obtain ⟨hm₁, hc₁⟩ := stepScope_invariant p v s s₁ e hm hc hs
      exact ih s₁ s' hm₁ hc₁ h

/-- A properly nested sequence always runs, and leaves alive guards of exactly the
classes its events say. -/
theorem runScopes_defined (p : Nat) (evs : List ScopeEvent) :
    ∀ (s : ScopeState) (ks : List GuardKind),
      openGuards evs (s.live.map SectionGuard.kind) = some ks →
      ∃ s', runScopes p evs s = some s' ∧ s'.live.map SectionGuard.kind = ks := by
  induction evs with
  | nil =>
    intro s ks h
    simp only [openGuards, Option.some.injEq] at h
    exact ⟨s, rfl, h⟩
  | cons e es ih =>
    intro s ks h
    cases e with
    | construct k =>
      simp only [openGuards] at h
      obtain ⟨_, _, hk, _⟩ := SectionGuard.construct_spec k p s.mem
      obtain ⟨s', hr, hl⟩ :=
        ih ⟨(SectionGuard.construct k p s.mem).2, (SectionGuard.construct k p s.mem).1 :: s.live⟩
          ks (by simpa [hk] using h)
      exact ⟨s', by simpa [runScopes, stepScope] using hr, hl⟩
    | destruct =>
      cases hl : s.live with
      | nil => simp [hl, openGuards] at h
      | cons g rest =>
        simp only [hl, List.map_cons, openGuards] at h
        obtain ⟨s', hr, hl'⟩ := ih ⟨g.destruct s.mem, rest⟩ ks (by simpa using h)
        exact ⟨s', by simpa [runScopes, stepScope, hl] using hr, hl'⟩

/-- C1: for every initial value of the flag and every properly nested sequence of
constructions and destructions of guards of either class on that flag, of any depth
and any mix, that has destroyed every guard it constructed: the sequence runs to the
end, no guard is left alive, and the flag holds its initial value again. -/
theorem nested_guards_restore_flag (p : Nat) (σ : Store) (evs : List ScopeEvent)
    (h : openGuards evs [] = some []) :
    ∃ s', runScopes p evs ⟨σ, []⟩ = some s' ∧ s'.live = [] ∧ s'.mem p = σ p := by
  obtain ⟨s', hr, hl⟩ := runScopes_defined p evs ⟨σ, []⟩ [] (by simpa using h)
  have hnil : s'.live = [] := List.map_eq_nil_iff.mp hl
  obtain ⟨hm, _⟩ := runScopes_invariant p (σ p) evs ⟨σ, []⟩ s' rfl trivial hr
  refine ⟨s', hr, hnil, ?_⟩
  rw [hm, hnil]
  rfl

/-- Witness for C1: flag `true`, a `NonReclaimableSectionGuard` with a
`ReclaimableSectionGuard` nested inside it, both destroyed in reverse order. -/
theorem nested_guards_restore_flag_witness :
    openGuards [.construct .nonReclaimable, .construct .reclaimable, .destruct, .destruct] []
        = some []
      ∧ ∃ s', runScopes 7
          [.construct .nonReclaimable, .construct .reclaimable, .destruct, .destruct]
          ⟨fun _ => true, []⟩ = some s' ∧ s'.live = [] ∧ s'.mem 7 = true :=
  ⟨by decide, nested_guards_restore_flag 7 (fun _ => true) _ (by decide)⟩

/-- C9: at every point of every properly nested sequence of guard constructions and
destructions on one flag that starts from flag value `v` with no guard alive, the
sequence so far has run, the guards alive are of the classes `ks` the events say, and
the flag equals the value pushed by the innermost guard still alive (`false` for a
`ReclaimableSectionGuard`, `true` for a `NonReclaimableSectionGuard`) and equals `v`
when none is alive; destroying the innermost guard then shows the value of the guard
enclosing it (or `v`). -/
theorem flag_shows_innermost_live_guard (p : Nat) (σ : Store) (evs : List ScopeEvent)
    (ks : List GuardKind) (h : openGuards evs [] = some ks) :
    ∃ s', runScopes p evs ⟨σ, []⟩ = some s' ∧ s'.live.map SectionGuard.kind = ks
      ∧ s'.mem p = exposedValue (σ p) ks
      ∧ ∀ g rest, s'.live = g :: rest →
          (g.destruct s'.mem) p = exposedValue (σ p) ks.tail := by
  obtain ⟨s', hr, hl⟩ := runScopes_defined p evs ⟨σ, []⟩ ks (by simpa using h)
  obtain ⟨hm, hc⟩ := runScopes_invariant p (σ p) evs ⟨σ, []⟩ s' rfl trivial hr
  refine ⟨s', hr, hl, by rw [hm, hl], ?_⟩
  intro g rest hg
  rw [hg] at hc hl
  obtain ⟨hp, ho, _⟩ := hc
  rw [SectionGuard.destruct_eq_write, hp, Store.write_same, ho, ← hl]
  rfl

/-- Witness for C9: flag `false`, a `NonReclaimableSectionGuard`, inside it a
`ReclaimableSectionGuard`, inside that a second `NonReclaimableSectionGuard` which has
been destroyed again: two guards are alive, the flag shows `false` pushed by the inner
one, and destroying it shows `true` pushed by the outer one. -/
theorem flag_shows_innermost_live_guard_witness :
    openGuards
        [.construct .nonReclaimable, .construct .reclaimable, .construct .nonReclaimable,
          .destruct] [] = some [.reclaimable, .nonReclaimable]
      ∧ ∃ s', runScopes 0
          [.construct .nonReclaimable, .construct .reclaimable, .construct .nonReclaimable,
            .destruct] ⟨fun _ => false, []⟩ = some s'
        ∧ s'.live.map SectionGuard.kind = [.reclaimable, .nonReclaimable]
        ∧ s'.mem 0 = false
        ∧ ∀ g rest, s'.live = g :: rest → (g.destruct s'.mem) 0 = true :=
  ⟨by decide, flag_shows_innermost_live_guard 0 (fun _ => false) _ _ (by decide)⟩

/-! ## Guarded blocks -/

/-- Both exits of the `ReclaimableSectionGuard` block run the destructor on the memory
the body left and pass the body's outcome on. -/
theorem withReclaimableSectionGuard_eq {ε α : Type} (p : Nat) (σ : Store)
    (body : Store → Except ε α × Store) :
    withReclaimableSectionGuard p body σ
      = ((body (ReclaimableSectionGuard.construct p σ).2).1,
          (ReclaimableSectionGuard.construct p σ).1.destruct
            (body (ReclaimableSectionGuard.construct p σ).2).2) := by
  dsimp only [withReclaimableSectionGuard]
  generalize body (ReclaimableSectionGuard.construct p σ).2 = r
  rcases r with ⟨_ | _, _⟩ <;> rfl

/-- Both exits of the `NonReclaimableSectionGuard` block run the destructor on the
memory the body left and pass the body's outcome on. -/
theorem withNonReclaimableSectionGuard_eq {ε α : Type} (p : Nat) (σ : Store)
    (body : Store → Except ε α × Store) :
    withNonReclaimableSectionGuard p body σ
      = ((body (NonReclaimableSectionGuard.construct p σ).2).1,
          (NonReclaimableSectionGuard.construct p σ).1.destruct
            (body (NonReclaimableSectionGuard.construct p σ).2).2) := by
  dsimp only [withNonReclaimableSectionGuard]
  generalize body (NonReclaimableSectionGuard.construct p σ).2 = r
  rcases r with ⟨_ | _, _⟩ <;> rfl

/-- C3: for every initial flag value, either guard class and every body run inside the
guard's scope, whether the body returns a value or raises an error and whatever it
leaves in the flag, the flag holds its initial value once the scope has been left,
and the body's outcome (its value, or the error it raised) reaches the caller
unchanged. -/
theorem guarded_block_restores_flag {ε α : Type} (p : Nat) (σ : Store)
    (body : Store → Except ε α × Store) :
    ((withReclaimableSectionGuard p body σ).2 p = σ p
      ∧ (withReclaimableSectionGuard p body σ).1
          = (body (ReclaimableSectionGuard.construct p σ).2).1)
    ∧ ((withNonReclaimableSectionGuard p body σ).2 p = σ p
      ∧ (withNonReclaimableSectionGuard p body σ).1
          = (body (NonReclaimableSectionGuard.construct p σ).2).1) := by
  rw [withReclaimableSectionGuard_eq, withNonReclaimableSectionGuard_eq]
  simp [ReclaimableSectionGuard.construct, ReclaimableSectionGuard.destruct,
    NonReclaimableSectionGuard.construct, NonReclaimableSectionGuard.destruct, Store.write]

/-- C8 as stated fails: with the flag already `true` before the guard (for instance
inside an enclosing `NonReclaimableSectionGuard`), the flag reads `true` again after
the guard has exited normally, so the reclaim attempt is still rejected. -/
theorem reclaim_after_guard_exit_counterexample :
    ¬ (reclaimAttemptSucceeds (NonReclaimableSectionGuard.construct 0 (fun _ => true)).2 0
          = false
        ∧ reclaimAttemptSucceeds
            (withNonReclaimableSectionGuard 0 (fun m => ((Except.ok () : Except Unit Unit), m))
              (fun _ => true)).2 0 = true) := by
  decide

/-- C8 amended: while the critical update is wrapped in a `NonReclaimableSectionGuard`
the flag reads `true` and a reclaim attempt is rejected; after the guard has exited the
flag reads the value it had before the guard was constructed, so a reclaim attempt
succeeds exactly when the flag was `false` before the guard. -/
theorem reclaim_rejected_inside_guard_and_prior_after (p : Nat) (σ : Store)
    (body : Store → Except Unit Unit × Store) :
    (NonReclaimableSectionGuard.construct p σ).2 p = true
      ∧ reclaimAttemptSucceeds (NonReclaimableSectionGuard.construct p σ).2 p = false
      ∧ (withNonReclaimableSectionGuard p body σ).2 p = σ p
      ∧ (reclaimAttemptSucceeds (withNonReclaimableSectionGuard p body σ).2 p = true
          ↔ σ p = false) := by
  have hrest : (withNonReclaimableSectionGuard p body σ).2 p = σ p := by
    rw [withNonReclaimableSectionGuard_eq]
    simp [NonReclaimableSectionGuard.construct, NonReclaimableSectionGuard.destruct,
      Store.write]
  refine ⟨?_, ?_, hrest, ?_⟩
  · simp [NonReclaimableSectionGuard.construct, Store.write]
  · simp [reclaimAttemptSucceeds, NonReclaimableSectionGuard.construct, Store.write]
  · simp [reclaimAttemptSucceeds, hrest]

/-- C10: restoration depends on stack discipline.  With the flag `false`, construct a
`NonReclaimableSectionGuard`, then a `ReclaimableSectionGuard`, destroy the first and
then the second: the second destructor writes back the `true` it recorded, so the flag
ends `true`, not its initial `false`. -/
theorem out_of_order_destruction_changes_flag :
    ∃ (σ : Store) (p : Nat),
      σ p = false
      ∧ (ReclaimableSectionGuard.construct p
            (NonReclaimableSectionGuard.construct p σ).2).1.oldNonReclaimableSectionValue_
          = true
      ∧ ((ReclaimableSectionGuard.construct p
            (NonReclaimableSectionGuard.construct p σ).2).1.destruct
          ((NonReclaimableSectionGuard.construct p σ).1.destruct
            (ReclaimableSectionGuard.construct p
              (NonReclaimableSectionGuard.construct p σ).2).2)) p = true
      ∧ ((ReclaimableSectionGuard.construct p
            (NonReclaimableSectionGuard.construct p σ).2).1.destruct
          ((NonReclaimableSectionGuard.construct p σ).1.destruct
            (ReclaimableSectionGuard.construct p
              (NonReclaimableSectionGuard.construct p σ).2).2)) p ≠ σ p :=
  ⟨fun _ => false, 0, by decide, by decide, by decide, by decide⟩

/-! ## Entering and leaving arbitration -/

/-- When every enter has its later leave, the sequence is empty or the unit ends with
its flag cleared. -/
theorem runArbitrationCalls_matched (cs : List ArbitrationCall) :
    ∀ (u : ExecutionUnit) (pending : Nat), unmatchedEnters cs pending = 0 →
      cs = [] ∨ (runArbitrationCalls cs u).suspended = false := by
  induction cs with
  | nil => intro u pending _; exact Or.inl rfl
  | cons c cs ih =>
    intro u pending h
    right
    cases c with
    | enter =>
      simp only [unmatchedEnters] at h
      rcases ih (MemoryReclaimer.enterArbitration u) (pending + 1) h with hnil | hs
      · subst hnil
        simp [unmatchedEnters] at h
      · simpa [runArbitrationCalls] using hs
    | leave =>
      simp only [unmatchedEnters] at h
      rcases ih (MemoryReclaimer.leaveArbitration u) (pending - 1) h with hnil | hs
      · subst hnil
        simp [runArbitrationCalls, MemoryReclaimer.leaveArbitration]
      · simpa [runArbitrationCalls] using hs

/-- C5 as stated fails: a unit whose suspension flag is `true` before the first call
(it is already in arbitration), calls enter then leave, the enter matched by the later
leave: leaveArbitration sets the flag to `false`, which is not the value it had before
the first call. -/
theorem arbitration_calls_restore_flag_counterexample :
    eachEnterMatched [.enter, .leave] = true
      ∧ (runArbitrationCalls [.enter, .leave] ⟨true, false⟩).suspended = false
      ∧ (runArbitrationCalls [.enter, .leave] ⟨true, false⟩).suspended
          ≠ (⟨true, false⟩ : ExecutionUnit).suspended := by
  decide

/-- C5 amended: for every execution unit and every sequence of enterArbitration /
leaveArbitration calls on it in which each enter is matched by a later leave, the
suspension flag after a non-empty sequence is `false`; so the flag after the sequence
equals its value before the first call exactly when that value was `false` (the
flag's default) or no call was made.  On every unit enterArbitration sets the flag to
`true` and leaveArbitration sets it to `false`. -/
theorem arbitration_calls_end_unsuspended (u : ExecutionUnit) (cs : List ArbitrationCall)
    (hm : eachEnterMatched cs = true) :
    ((runArbitrationCalls cs u).suspended = u.suspended ↔ (cs = [] ∨ u.suspended = false))
      ∧ (cs ≠ [] → (runArbitrationCalls cs u).suspended = false)
      ∧ (∀ w : ExecutionUnit,
          (MemoryReclaimer.enterArbitration w).suspended = true
            ∧ (MemoryReclaimer.leaveArbitration w).suspended = false
            ∧ (MemoryReclaimer.leaveArbitration (MemoryReclaimer.enterArbitration w)).suspended
                = false) := by
  have h : unmatchedEnters cs 0 = 0 := by simpa [eachEnterMatched] using hm
  refine ⟨?_, ?_, fun w => ⟨rfl, rfl, rfl⟩⟩
  · rcases runArbitrationCalls_matched cs u 0 h with hnil | hs
    · subst hnil
      exact ⟨fun _ => Or.inl rfl, fun _ => rfl⟩
    · constructor
      · intro he
        exact Or.inr (by rw [← he, hs])
      · intro hor
        rcases hor with hnil | h0
        · subst hnil
          rfl
        · rw [hs, h0]
  · intro hne
    rcases runArbitrationCalls_matched cs u 0 h with hnil | hs
    · exact absurd hnil hne
    · exact hs

/-- Witness for C5 amended: a new unit (flag `false`), calls enter, enter, leave, leave,
leave, enter, leave: every enter has its later leave, and the flag ends `false`, its
value before the first call. -/
theorem arbitration_calls_end_unsuspended_witness :
    eachEnterMatched [.enter, .enter, .leave, .leave, .leave, .enter, .leave] = true
      ∧ (runArbitrationCalls [.enter, .enter, .leave, .leave, .leave, .enter, .leave]
          ExecutionUnit.create).suspended = ExecutionUnit.create.suspended
      ∧ (runArbitrationCalls [.enter, .enter, .leave, .leave, .leave, .enter, .leave]
          ExecutionUnit.create).suspended = false :=
  ⟨by decide,
    (arbitration_calls_end_unsuspended ExecutionUnit.create
      [.enter, .enter, .leave, .leave, .leave, .enter, .leave] (by decide)).1.mpr
        (Or.inr rfl),
    (arbitration_calls_end_unsuspended ExecutionUnit.create
      [.enter, .enter, .leave, .leave, .leave, .enter, .leave] (by decide)).2.1
        (by decide)⟩

/-! ## Abort -/

/-- C7: abort is idempotent: for every pool and every pair of errors, a second abort
leaves the pool exactly as the first abort left it, the recorded cause included; the
first abort records its error unless the pool was aborted before. -/
theorem abort_idempotent {ε : Type} (pool : MemoryPool ε) (e₁ e₂ : ε) :
    MemoryReclaimer.abort (MemoryReclaimer.abort pool e₁) e₂ = MemoryReclaimer.abort pool e₁
      ∧ (MemoryReclaimer.abort pool e₁).abortCause = some (pool.abortCause.getD e₁) := by
  rcases pool with ⟨_ | c⟩ <;> simp [MemoryReclaimer.abort]

/-! ## Arbitration state check -/

/-- When the wait returns at poll `t`, every unit read at `t` was suspended or off
thread, and at every earlier poll of this wait some unit was still running. -/
theorem waitForUnits_returned (units : Nat → List ExecutionUnit) (polls : Nat) :
    ∀ (t₀ t : Nat), waitForUnits units polls t₀ = .returned t →
      t₀ ≤ t ∧ allSuspendedOrOffThread (units t) = true
        ∧ ∀ t', t₀ ≤ t' → t' < t → allSuspendedOrOffThread (units t') = false := by
  induction polls with
  | zero => intro t₀ t h; simp [waitForUnits] at h
  | succ n ih =>
    intro t₀ t h
    simp only [waitForUnits] at h
    by_cases hq : allSuspendedOrOffThread (units t₀) = true
    · rw [if_pos hq] at h
      injection h with h
      subst h
      exact ⟨le_refl _, hq, fun t' h1 h2 => absurd h1 (by omega)⟩
    · rw [if_neg hq] at h
      obtain ⟨h1, h2, h3⟩ := ih (t₀ + 1) t h
      refine ⟨by omega, h2, ?_⟩
      intro t' ht0 ht
      by_cases he : t' = t₀
      · subst he
        simpa using hq
      · exact h3 t' (by omega) ht

/-- The wait does return when some poll within its bound finds every unit suspended
or off thread. -/
theorem waitForUnits_progress (units : Nat → List ExecutionUnit) (k : Nat) :
    ∀ t₀ : Nat, allSuspendedOrOffThread (units (t₀ + k)) = true →
      ∃ t, t ≤ t₀ + k ∧ waitForUnits units (k + 1) t₀ = .returned t := by
  induction k with
  | zero =>
    intro t₀ h
    exact ⟨t₀, le_refl _, by simpa [waitForUnits] using h⟩
  | succ k ih =>
    intro t₀ h
    by_cases hq : allSuspendedOrOffThread (units t₀) = true
    · exact ⟨t₀, by omega, by simp [waitForUnits, hq]⟩
    · have h' : allSuspendedOrOffThread (units (t₀ + 1 + k)) = true := by
        have e : t₀ + 1 + k = t₀ + (k + 1) := by omega
        rw [e]
        exact h
      obtain ⟨t, ht, hr⟩ := ih (t₀ + 1) h'
      refine ⟨t, by omega, ?_⟩
      rw [waitForUnits, if_neg hq]
      exact hr

/-- The check either reports the caller or is the wait itself. -/
theorem memoryArbitrationStateCheck_cases (caller : Option Nat)
    (units : Nat → List ExecutionUnit) (maxPolls : Nat) :
    memoryArbitrationStateCheck caller units maxPolls = .deadlockError
      ∨ memoryArbitrationStateCheck caller units maxPolls = waitForUnits units maxPolls 0 := by
  unfold memoryArbitrationStateCheck
  cases caller.bind (fun i => (units 0)[i]?) with
  | none => exact Or.inr rfl
  | some u =>
    cases hs : u.suspended with
    | false => left; simp [hs]
    | true => right; simp [hs]

/-- C4: the state check returns only at a poll at which every execution unit of the
pool's owner is read as suspended or off-thread: no unit read at that poll is actively
running, at every earlier poll some unit still was, and a suspended unit is not
counted as running.  The check does return (or reports its caller) once some poll
within its bound finds every unit suspended or off-thread. -/
theorem state_check_returns_only_when_all_quiescent (caller : Option Nat)
    (units : Nat → List ExecutionUnit) :
    (∀ maxPolls t, memoryArbitrationStateCheck caller units maxPolls = .returned t →
        (∀ u ∈ units t, u.activelyRunning = false ∧ (u.suspended = true ∨ u.offThread = true))
          ∧ ∀ t', t' < t → ∃ u ∈ units t', u.activelyRunning = true)
      ∧ (∀ n, allSuspendedOrOffThread (units n) = true →
          memoryArbitrationStateCheck caller units (n + 1) = .deadlockError
            ∨ ∃ t, t ≤ n ∧ memoryArbitrationStateCheck caller units (n + 1) = .returned t)
      ∧ (∀ u : ExecutionUnit, u.suspended = true → u.activelyRunning = false) := by
  refine ⟨?_, ?_, ?_⟩
  · intro maxPolls t h
    rcases memoryArbitrationStateCheck_cases caller units maxPolls with hd | hw
    · rw [hd] at h
      cases h
    · rw [hw] at h
      obtain ⟨_, hq, hearlier⟩ := waitForUnits_returned units maxPolls 0 t h
      refine ⟨?_, ?_⟩
      · intro u hu
        have := (List.all_eq_true.mp hq) u hu
        cases hs : u.suspended <;> cases ho : u.offThread <;>
          simp_all [ExecutionUnit.activelyRunning]
      · intro t' ht'
        have hf := hearlier t' (Nat.zero_le _) ht'
        have : ¬ (units t').all (fun u => !u.activelyRunning) = true := by
          simpa [allSuspendedOrOffThread] using hf
        rw [List.all_eq_true] at this
        push_neg at this
        obtain ⟨u, hu, hrun⟩ := this
        exact ⟨u, hu, by simpa using hrun⟩
  · intro n hq
    rcases memoryArbitrationStateCheck_cases caller units (n + 1) with hd | hw
    · exact Or.inl hd
    · right
      obtain ⟨t, ht, hr⟩ := waitForUnits_progress units n 0 (by simpa using hq)
      exact ⟨t, by omega, by rw [hw]; exact hr⟩
  · intro u hs
    simp [ExecutionUnit.activelyRunning, hs]

/-- Witness for C4: two units, the first running for two polls and off thread from
the third on, the second suspended throughout; the check returns at the third poll
(number 2), where no unit is running, and not before. -/
theorem state_check_returns_only_when_all_quiescent_witness :
    memoryArbitrationStateCheck none
        (fun t => if t < 2 then [⟨false, false⟩, ⟨true, false⟩]
          else [⟨false, true⟩, ⟨true, false⟩]) 5 = .returned 2
      ∧ ((∀ u ∈ (fun t => if t < 2 then [(⟨false, false⟩ : ExecutionUnit), ⟨true, false⟩]
            else [⟨false, true⟩, ⟨true, false⟩]) 2,
          u.activelyRunning = false ∧ (u.suspended = true ∨ u.offThread = true))
        ∧ ∀ t', t' < 2 →
          ∃ u ∈ (fun t => if t < 2 then [(⟨false, false⟩ : ExecutionUnit), ⟨true, false⟩]
            else [⟨false, true⟩, ⟨true, false⟩]) t', u.activelyRunning = true) :=
  ⟨by decide,
    (state_check_returns_only_when_all_quiescent none
      (fun t => if t < 2 then [⟨false, false⟩, ⟨true, false⟩]
        else [⟨false, true⟩, ⟨true, false⟩])).1 5 2 (by decide)⟩

/-- The wait itself never reports a deadlock. -/
theorem waitForUnits_ne_deadlockError (units : Nat → List ExecutionUnit) (polls : Nat) :
    ∀ t₀ : Nat, waitForUnits units polls t₀ ≠ .deadlockError := by
  induction polls with
  | zero => intro t₀ h; simp [waitForUnits] at h
  | succ n ih =>
    intro t₀ h
    simp only [waitForUnits] at h
    by_cases hq : allSuspendedOrOffThread (units t₀) = true
    · rw [if_pos hq] at h
      cases h
    · rw [if_neg hq] at h
      exact ih (t₀ + 1) h

/-- C6: when the state check is called from a thread that is itself an execution unit
of the target pool's owner, the call ends in the deadlock error, whatever the bound on
the wait (so without waiting at all), exactly when that unit has not entered
arbitration (its suspension flag is `false`); when the calling unit is suspended no
such error is raised. -/
theorem state_check_reports_unsuspended_caller (i : Nat) (units : Nat → List ExecutionUnit)
    (maxPolls : Nat) (u : ExecutionUnit) (hu : (units 0)[i]? = some u) :
    memoryArbitrationStateCheck (some i) units maxPolls = .deadlockError
      ↔ u.suspended = false := by
  unfold memoryArbitrationStateCheck
  simp only [Option.bind, hu]
  cases hs : u.suspended with
  | false => simp
  | true =>
    simp only [if_true]
    constructor
    · intro h
      exact absurd h (waitForUnits_ne_deadlockError units maxPolls 0)
    · intro h
      cases h

/-- Witness for C6: two units of the owner, the first running and unsuspended, the
second suspended.  Called from the first the check reports the error, with a bound
of zero polls as well; called from the second it does not. -/
theorem state_check_reports_unsuspended_caller_witness :
    ((fun _ => [(⟨false, false⟩ : ExecutionUnit), ⟨true, false⟩]) 0)[0]? = some ⟨false, false⟩
      ∧ memoryArbitrationStateCheck (some 0) (fun _ => [⟨false, false⟩, ⟨true, false⟩]) 0
          = .deadlockError
      ∧ ¬ memoryArbitrationStateCheck (some 1) (fun _ => [⟨false, false⟩, ⟨true, false⟩]) 3
          = .deadlockError :=
  ⟨by decide,
    (state_check_reports_unsuspended_caller 0 (fun _ => [⟨false, false⟩, ⟨true, false⟩]) 0
      ⟨false, false⟩ (by decide)).mpr rfl,
    fun h => Bool.noConfusion
      ((state_check_reports_unsuspended_caller 1 (fun _ => [⟨false, false⟩, ⟨true, false⟩]) 3
        ⟨true, false⟩ (by decide)).mp h)⟩

end VeloxExec
